import Mathlib

/-!
# Verification of the from-scratch RNN forward pass

Shallow embedding of the forward-pass engine of `src/RNN_from_scratch.ipynb`
(the `RNN` class) and proofs about it.

Modelling conventions, matching the source:

* Scalars are an arbitrary commutative ring `R`; the elementwise activation
  is an arbitrary function `tanh : R → R` passed explicitly.  The spec treats
  the numeric substrate (matrix-vector product, elementwise addition,
  elementwise tanh, stacking) as an external capability, so the embedding is
  parametric in it; witnesses instantiate `R := ℤ` so everything evaluates by kernel reduction.
* A tensor of shape (a, b) is a `List (List R)` of `a` rows; a tensor of
  shape (a, b, c) is a `List (List (List R))`.  `torch.stack` of a list of
  tensors is the nested list itself, except that `torch.stack` raises on an
  empty list, which we model as `Option`: `torch_stack [] = none`.
* Python exceptions (the `torch.stack` error on an empty list, the
  `IndexError` from `self.ws_ih[i_layer]`, the `RuntimeError` from an
  impossible `reshape`) are modelled by `Option`/`none`, propagating as in
  the source.
* The module-level global `N` read by `__call__` is passed to `forward` as
  the explicit argument `ambientN`: it is whatever the ambient variable `N`
  holds at call time, independent of `x`.
-/

namespace RNNFS

/-- Per-layer parameters, as built in `RNN.__init__`: `w_ih` of shape
(hidden_size, layer_input_size), `w_hh` of shape (hidden_size, hidden_size),
biases of shape (hidden_size).  The source keeps four parallel lists
`ws_ih, ws_hh, bs_ih, bs_hh`, all indexed by the layer; we bundle the four
entries at one index into one structure. -/
structure LayerParams (R : Type) where
  w_ih : List (List R)
  w_hh : List (List R)
  b_ih : List R
  b_hh : List R
  deriving DecidableEq

/-- A vector: tensor of shape (n,). -/
abbrev Vec (R : Type) := List R

/-- A tensor of shape (a, b, c), e.g. the input `x : [N, L, H_in]`. -/
abbrev Tensor3 (R : Type) := List (List (List R))

/-- The model: `input_size`, `hidden_size`, `num_layers` as stored by
`__init__`, plus the per-layer parameters (`__init__` builds exactly
`num_layers` of them). -/
structure RNN (R : Type) where
  input_size : ℕ
  hidden_size : ℕ
  num_layers : ℕ
  params : List (LayerParams R)
  deriving DecidableEq

variable {R : Type} [CommRing R]

/-- `torch.einsum('ij,j', w, x)` row `i` is the dot product of row `i` of `w`
with `x`. -/
def dot (r x : List R) : R := (List.zipWith (fun a b => a * b) r x).sum

/-- `torch.einsum('ij,j', w, x)`: matrix-vector product, one dot product per
row of `w`. -/
def matvec (w : List (List R)) (x : List R) : List R := w.map (fun r => dot r x)

/-- Elementwise `+` on two same-shape vectors. -/
def vadd (a b : List R) : List R := List.zipWith (fun u v => u + v) a b

/-- `RNN.tanh_cell`:
`torch.tanh(einsum('ij,j', w_ih, x) + einsum('ij,j', w_hh, h) + b_ih + b_hh)`,
with the source's left-to-right association of `+` and `tanh` applied
elementwise. -/
def tanh_cell (tanh : R → R) (p : LayerParams R) (x h : Vec R) : Vec R :=
  (vadd (vadd (vadd (matvec p.w_ih x) (matvec p.w_hh h)) p.b_ih) p.b_hh).map tanh

/-- `torch.stack` on a list of same-shape tensors: as nested lists it is the
list itself, but `torch.stack` raises `RuntimeError` on an empty list. -/
def torch_stack {α : Type} : List α → Option (List α)
  | [] => none
  | x :: xs => some (x :: xs)

/-- The accumulation loop inside `RNN.cum_map`: walk `xs`, updating
`h = f x h` and appending each new `h` to `cum_results`.  Returns the list
of appended states together with the last value of `h`. -/
def cum_go {α β : Type} (f : α → β → β) : List α → β → List β × β
  | [], h => ([], h)
  | x :: xs, h =>
    let r := cum_go f xs (f x h)
    (f x h :: r.1, r.2)

/-- `RNN.cum_map`: runs the loop, then `torch.stack(cum_results)` (which
raises when the sequence is empty), and returns the stacked states with the
final `h`. -/
def cum_map {α β : Type} (f : α → β → β) (xs : List α) (h : β) : Option (List β × β) :=
  (torch_stack (cum_go f xs h).1).map (fun s => (s, (cum_go f xs h).2))

/-- The loop of `RNN.layers_forward`: `for i_layer, h_0 in enumerate(h_inits)`,
looking up `self.ws_ih[i_layer]` etc. (an `IndexError` — `none` — when the
index exceeds the parameter lists, raised before the scan runs), then
`x, h_L = cum_map(f_partial, x, h_0)`, collecting every `h_L`.
Walking `ps` in step with `h_inits` is the same as indexing the parameter
lists by the position in `h_inits`. -/
def layers_go (cell : LayerParams R → Vec R → Vec R → Vec R) :
    List (LayerParams R) → List (Vec R) → List (Vec R) →
      Option (List (Vec R) × List (Vec R))
  | _, x, [] => some (x, [])
  | [], _, _ :: _ => none
  | p :: ps, x, h0 :: rest =>
    (cum_map (cell p) x h0).bind (fun r =>
      (layers_go cell ps r.1 rest).map (fun q => (q.1, r.2 :: q.2)))

/-- `RNN.layers_forward`: run the per-layer loop, then
`return x, torch.stack(hs_L)` (the stack raises when `h_inits` is empty). -/
def layers_forward (cell : LayerParams R → Vec R → Vec R → Vec R)
    (ps : List (LayerParams R)) (x : List (Vec R)) (h_inits : List (Vec R)) :
    Option (List (Vec R) × List (Vec R)) :=
  (layers_go cell ps x h_inits).bind (fun r =>
    (torch_stack r.2).map (fun s => (r.1, s)))

/-- `RNN.batch_forward`: `layers_forward(self.tanh_cell, x, h_0)`. -/
def batch_forward (tanh : R → R) (ps : List (LayerParams R))
    (x : List (Vec R)) (h0 : List (Vec R)) : Option (List (Vec R) × List (Vec R)) :=
  layers_forward (tanh_cell tanh) ps x h0

/-- `torch.zeros(a, b, c)`. -/
def zeros3 (a b c : ℕ) : Tensor3 R :=
  List.replicate a (List.replicate b (List.replicate c 0))

/-- The row-major flattening of a (a, b, c) tensor, as `reshape` sees it. -/
def flatten3 (t : Tensor3 R) : List R := (t.map List.flatten).flatten

/-- Split a flat list into `k` consecutive chunks of length `c`. -/
def chunks {α : Type} : ℕ → ℕ → List α → List (List α)
  | 0, _, _ => []
  | k + 1, c, l => l.take c :: chunks k c (l.drop c)

/-- Row-major regrouping of a flat list into shape (a, b, c). -/
def groups3 (a b c : ℕ) (l : List R) : Tensor3 R :=
  (chunks a (b * c) l).map (chunks b c)

/-- `t.reshape(a, b, c)`: succeeds iff the total element count matches
`a * b * c`, in which case the elements are reinterpreted in row-major
order; otherwise `RuntimeError` (`none`). -/
def reshape3 (t : Tensor3 R) (a b c : ℕ) : Option (Tensor3 R) :=
  if (flatten3 t).length = a * b * c then some (groups3 a b c (flatten3 t)) else none

/-- `torch.einsum('ijk->jik', t)` on a stacked (hence rectangular) tensor:
column `j` of the result collects entry `j` of every row. -/
def transposeJI {α : Type} (t : List (List α)) : List (List α) :=
  (List.range (t.headD []).length).map (fun j => t.filterMap (fun row => row[j]?))

/-- The part of `RNN.__call__` after the `h_0` default and reshape: loop over
`zip(x, h_0)`, `batch_forward` each pair (an exception in any iteration
propagates), then `torch.stack(batch_hs)`, `torch.stack(batch_hn)` and the
`einsum('ijk->jik')` transposition of the latter. -/
def forwardBatches (tanh : R → R) (m : RNN R) (x : Tensor3 R) (h0 : Tensor3 R) :
    Option (Tensor3 R × Tensor3 R) :=
  ((x.zip h0).mapM (fun pr => batch_forward tanh m.params pr.1 pr.2)).bind
    (fun results =>
      (torch_stack (results.map Prod.fst)).bind (fun bhs =>
        (torch_stack (results.map Prod.snd)).map (fun bhn => (bhs, transposeJI bhn))))

/-- `RNN.__call__`: when `h_0` is `None` it is
`torch.zeros(self.num_layers, N, self.hidden_size)` with `N` the ambient
module-level global (argument `ambientN`); then
`h_0 = h_0.reshape(N, self.num_layers, self.hidden_size)` — again with the
ambient `N` — and the batch loop. -/
def forward (tanh : R → R) (m : RNN R) (ambientN : ℕ) (x : Tensor3 R)
    (h0opt : Option (Tensor3 R)) : Option (Tensor3 R × Tensor3 R) :=
  let h0 := h0opt.getD (zeros3 m.num_layers ambientN m.hidden_size)
  (reshape3 h0 ambientN m.num_layers m.hidden_size).bind
    (fun h0r => forwardBatches tanh m x h0r)

/-! ## Spec-side definitions

These follow the wording of the specification (not the source) and are used
to state refinement: the scan contract of §4.3, the layer chain of §4.4, the
batch concatenation of §8, and the shape contracts of §3/§6. -/

/-- Modelled from the spec (§4.3): "produces the ordered sequence `h_1..h_L`
where `h_t = cell(x_t, h_{t-1})`". -/
def SpecScan {α β : Type} (f : α → β → β) (h : β) : List α → List β
  | [] => []
  | x :: xs => f x h :: SpecScan f (f x h) xs

/-- Modelled from the spec (§4.4): layer `ℓ`'s output sequence becomes layer
`ℓ+1`'s input sequence; the result is the last layer's full output sequence.
The per-layer data is the list of (parameters, initial hidden vector) pairs
in layer-index order. -/
def SpecChainOut {P γ : Type} (cell : P → γ → γ → γ) :
    List (P × γ) → List γ → List γ
  | [], xs => xs
  | ph :: rest, xs => SpecChainOut cell rest (SpecScan (cell ph.1) ph.2 xs)

/-- Modelled from the spec (§4.4): "the stacked per-layer final hidden
vectors (ordered by layer index)"; each layer's final state is the left-fold
of the cell over that layer's input sequence. -/
def SpecFinals {P γ : Type} (cell : P → γ → γ → γ) :
    List (P × γ) → List γ → List γ
  | [], _ => []
  | ph :: rest, xs =>
    List.foldl (fun b a => cell ph.1 a b) ph.2 xs ::
      SpecFinals cell rest (SpecScan (cell ph.1) ph.2 xs)

/-- Shape predicate: `t` is a (a, b, c) tensor. -/
def HasShape3 (t : Tensor3 R) (a b c : ℕ) : Prop :=
  t.length = a ∧ ∀ mr ∈ t, mr.length = b ∧ ∀ v ∈ mr, v.length = c

instance (t : Tensor3 R) (a b c : ℕ) [DecidableEq R] : Decidable (HasShape3 t a b c) := by
  unfold HasShape3; infer_instance

/-- Modelled from the spec (§8, batch independence): concatenating
per-batch-element `FinalHiddenStack`s of shape (num_layers, 1, H_out) along
the batch axis (axis 1). -/
def concatBatch1 (numLayers : ℕ) (ts : List (Tensor3 R)) : Tensor3 R :=
  (List.range numLayers).map (fun j => (ts.filterMap (fun t => t[j]?)).flatten)

/-! ## Helper lemmas -/

@[simp] theorem torch_stack_nil {α : Type} : torch_stack ([] : List α) = none := rfl

theorem torch_stack_of_ne_nil {α : Type} {l : List α} (h : l ≠ []) :
    torch_stack l = some l := by
  cases l with
  | nil => exact absurd rfl h
  | cons x xs => rfl

@[simp] theorem SpecScan_nil {α β : Type} (f : α → β → β) (h : β) :
    SpecScan f h [] = [] := rfl

@[simp] theorem SpecScan_cons {α β : Type} (f : α → β → β) (h : β) (x : α) (xs : List α) :
    SpecScan f h (x :: xs) = f x h :: SpecScan f (f x h) xs := rfl

@[simp] theorem SpecScan_length {α β : Type} (f : α → β → β) (h : β) (xs : List α) :
    (SpecScan f h xs).length = xs.length := by
  induction xs generalizing h with
  | nil => rfl
  | cons x xs ih => simp [SpecScan, ih]

theorem SpecScan_ne_nil {α β : Type} (f : α → β → β) (h : β) {xs : List α}
    (hxs : xs ≠ []) : SpecScan f h xs ≠ [] := by
  intro hc
  apply hxs
  have := SpecScan_length f h xs
  rw [hc] at this
  exact List.length_eq_zero.mp this.symm

theorem cum_go_eq {α β : Type} (f : α → β → β) (xs : List α) (h : β) :
    cum_go f xs h = (SpecScan f h xs, List.foldl (fun b a => f a b) h xs) := by
  induction xs generalizing h with
  | nil => rfl
  | cons x xs ih => simp [cum_go, ih, SpecScan]

/-- `cum_map` on a nonempty sequence computes exactly the spec's scan and
returns the left-fold as the final state. -/
theorem cum_map_eq_spec {α β : Type} (f : α → β → β) {xs : List α} (h : β)
    (hxs : xs ≠ []) :
    cum_map f xs h = some (SpecScan f h xs, List.foldl (fun b a => f a b) h xs) := by
  unfold cum_map
  rw [cum_go_eq, torch_stack_of_ne_nil (SpecScan_ne_nil f h hxs)]
  rfl

@[simp] theorem cum_map_nil {α β : Type} (f : α → β → β) (h : β) :
    cum_map f ([] : List α) h = none := rfl

theorem SpecScan_getLast? {α β : Type} (f : α → β → β) (h : β) {xs : List α}
    (hxs : xs ≠ []) :
    (SpecScan f h xs).getLast? = some (List.foldl (fun b a => f a b) h xs) := by
  induction xs generalizing h with
  | nil => exact absurd rfl hxs
  | cons x xs ih =>
    cases xs with
    | nil => rfl
    | cons y ys =>
      have := ih (h := f x h) (List.cons_ne_nil y ys)
      simp only [SpecScan_cons] at this ⊢
      rw [List.getLast?_cons_cons]
      simpa using this

theorem SpecScan_getElem? {α β : Type} (f : α → β → β) (h : β) (xs : List α)
    (i : ℕ) (x : α) (hp : β) (hx : xs[i]? = some x)
    (hh : (if i = 0 then some h else (SpecScan f h xs)[i - 1]?) = some hp) :
    (SpecScan f h xs)[i]? = some (f x hp) := by
  induction xs generalizing h i with
  | nil => simp at hx
  | cons y ys ih =>
    cases i with
    | zero =>
      simp at hx hh
      subst hx; subst hh
      simp [SpecScan_cons]
    | succ j =>
      rw [SpecScan_cons]
      rw [List.getElem?_cons_succ] at hx
      simp only [Nat.succ_ne_zero, if_false, Nat.succ_sub_one] at hh
      cases j with
      | zero =>
        rw [SpecScan_cons, List.getElem?_cons_zero] at hh
        simp only [List.getElem?_cons_succ]
        exact ih (f y h) 0 hx (by simpa using hh)
      | succ k =>
        rw [SpecScan_cons, List.getElem?_cons_succ] at hh
        simp only [List.getElem?_cons_succ]
        exact ih (f y h) (k + 1) hx (by simpa using hh)

@[simp] theorem SpecFinals_length {P γ : Type} (cell : P → γ → γ → γ)
    (phs : List (P × γ)) (xs : List γ) :
    (SpecFinals cell phs xs).length = phs.length := by
  induction phs generalizing xs with
  | nil => rfl
  | cons ph rest ih => simp [SpecFinals, ih]

/-- The per-layer loop of `layers_forward` refines the spec's layer chain:
with one initial hidden vector per layer and a nonempty sequence, it
produces the chained output sequence and the per-layer final states in
layer order. -/
theorem layers_go_eq_spec (cell : LayerParams R → Vec R → Vec R → Vec R) :
    ∀ (ps : List (LayerParams R)) (hs : List (Vec R)) (xs : List (Vec R)),
      hs.length = ps.length → xs ≠ [] →
      layers_go cell ps xs hs =
        some (SpecChainOut cell (ps.zip hs) xs, SpecFinals cell (ps.zip hs) xs)
  | [], hs, xs, hlen, _ => by
    have : hs = [] := List.length_eq_zero.mp (by simpa using hlen)
    subst this
    rfl
  | p :: ps, hs, xs, hlen, hxs => by
    cases hs with
    | nil => simp at hlen
    | cons h0 rest =>
      have hlen' : rest.length = ps.length := by simpa using hlen
      rw [show layers_go cell (p :: ps) xs (h0 :: rest) =
          (cum_map (cell p) xs h0).bind (fun r =>
            (layers_go cell ps r.1 rest).map (fun q => (q.1, r.2 :: q.2))) from rfl]
      rw [cum_map_eq_spec (cell p) h0 hxs]
      rw [Option.some_bind]
      rw [layers_go_eq_spec cell ps rest (SpecScan (cell p) h0 xs) hlen'
        (SpecScan_ne_nil (cell p) h0 hxs)]
      simp [SpecChainOut, SpecFinals, List.zip]

/-- `layers_forward` refines the spec's layer chain (§4.4): at least one
layer, matching `h_inits`, nonempty input sequence. -/
theorem layers_forward_eq_spec (cell : LayerParams R → Vec R → Vec R → Vec R)
    (ps : List (LayerParams R)) (hs : List (Vec R)) (xs : List (Vec R))
    (hlen : hs.length = ps.length) (hps : ps ≠ []) (hxs : xs ≠ []) :
    layers_forward cell ps xs hs =
      some (SpecChainOut cell (ps.zip hs) xs, SpecFinals cell (ps.zip hs) xs) := by
  unfold layers_forward
  rw [layers_go_eq_spec cell ps hs xs hlen hxs]
  have hzip : ps.zip hs ≠ [] := by
    cases ps with
    | nil => exact absurd rfl hps
    | cons p ps' =>
      cases hs with
      | nil => simp at hlen
      | cons h0 rest => simp [List.zip_cons_cons]
  have hfin : SpecFinals cell (ps.zip hs) xs ≠ [] := by
    intro hc
    apply hzip
    have := SpecFinals_length cell (ps.zip hs) xs
    rw [hc] at this
    exact List.length_eq_zero.mp this.symm
  rw [Option.some_bind, torch_stack_of_ne_nil hfin]
  rfl

/-- More supplied initial hidden vectors than layers: the parameter lookup
`self.ws_ih[i_layer]` goes out of range, an error (`IndexError`). -/
theorem layers_go_none_of_lt (cell : LayerParams R → Vec R → Vec R → Vec R) :
    ∀ (hs : List (Vec R)) (ps : List (LayerParams R)) (xs : List (Vec R)),
      ps.length < hs.length → layers_go cell ps xs hs = none
  | [], _, _, hlt => by simp at hlt
  | h0 :: rest, [], xs, _ => rfl
  | h0 :: rest, p :: ps, xs, hlt => by
    have hlt' : ps.length < rest.length := by simpa using hlt
    rw [show layers_go cell (p :: ps) xs (h0 :: rest) =
        (cum_map (cell p) xs h0).bind (fun r =>
          (layers_go cell ps r.1 rest).map (fun q => (q.1, r.2 :: q.2))) from rfl]
    cases hcm : cum_map (cell p) xs h0 with
    | none => rfl
    | some r =>
      rw [Option.some_bind, layers_go_none_of_lt cell rest ps r.1 hlt']
      rfl

/-- Fewer supplied initial hidden vectors than layers: the loop runs over
`h_inits` only, so the trailing layers are ignored entirely. -/
theorem layers_go_take (cell : LayerParams R → Vec R → Vec R → Vec R) :
    ∀ (hs : List (Vec R)) (ps : List (LayerParams R)) (xs : List (Vec R)),
      hs.length ≤ ps.length →
      layers_go cell ps xs hs = layers_go cell (ps.take hs.length) xs hs
  | [], ps, xs, _ => by
    cases ps with
    | nil => rfl
    | cons p ps' => rfl
  | h0 :: rest, [], xs, hle => by simp at hle
  | h0 :: rest, p :: ps, xs, hle => by
    have hle' : rest.length ≤ ps.length := by simpa using hle
    rw [show (h0 :: rest).length = rest.length + 1 from rfl, List.take_succ_cons]
    rw [show layers_go cell (p :: ps) xs (h0 :: rest) =
        (cum_map (cell p) xs h0).bind (fun r =>
          (layers_go cell ps r.1 rest).map (fun q => (q.1, r.2 :: q.2))) from rfl]
    rw [show layers_go cell (p :: ps.take rest.length) xs (h0 :: rest) =
        (cum_map (cell p) xs h0).bind (fun r =>
          (layers_go cell (ps.take rest.length) r.1 rest).map
            (fun q => (q.1, r.2 :: q.2))) from rfl]
    cases hcm : cum_map (cell p) xs h0 with
    | none => rfl
    | some r => rw [Option.some_bind, Option.some_bind, layers_go_take cell rest ps r.1 hle']

/-! ### Reshape lemmas -/

theorem flatten_length_uniform {α : Type} {l : List (List α)} {b c : ℕ}
    (hlen : l.length = b) (hin : ∀ v ∈ l, v.length = c) :
    l.flatten.length = b * c := by
  subst hlen
  induction l with
  | nil => simp
  | cons v rest ih =>
    simp only [List.flatten_cons, List.length_append, List.length_cons]
    rw [hin v (List.mem_cons_self v rest), ih (fun w hw => hin w (List.mem_cons_of_mem v hw))]
    ring

theorem flatten3_length {t : Tensor3 R} {a b c : ℕ} (h : HasShape3 t a b c) :
    (flatten3 t).length = a * b * c := by
  obtain ⟨hlen, hrows⟩ := h
  subst hlen
  induction t with
  | nil => simp [flatten3]
  | cons mr rest ih =>
    have hmr := hrows mr (List.mem_cons_self mr rest)
    have hflat : mr.flatten.length = b * c := flatten_length_uniform hmr.1 hmr.2
    simp only [flatten3, List.map_cons, List.flatten_cons, List.length_append,
      List.length_cons] at ih ⊢
    rw [hflat, ih (fun w hw => hrows w (List.mem_cons_of_mem mr hw))]
    ring

theorem chunks_append {α : Type} {l1 : List α} {c : ℕ} (h : l1.length = c)
    (k : ℕ) (l2 : List α) : chunks (k + 1) c (l1 ++ l2) = l1 :: chunks k c l2 := by
  simp only [chunks, List.take_left' h, List.drop_left' h]

/-- Regrouping the flattening of a (b, c) matrix recovers the matrix. -/
theorem chunks_flatten {α : Type} {l : List (List α)} {c : ℕ}
    (hin : ∀ v ∈ l, v.length = c) :
    chunks l.length c l.flatten = l := by
  induction l with
  | nil => rfl
  | cons v rest ih =>
    simp only [List.length_cons, List.flatten_cons]
    rw [chunks_append (hin v (List.mem_cons_self v rest)),
      ih (fun w hw => hin w (List.mem_cons_of_mem v hw))]

/-- Regrouping the flattening of an exactly-(a, b, c)-shaped tensor recovers
the tensor: `reshape` to its own shape is the identity. -/
theorem groups3_flatten3 {t : Tensor3 R} {a b c : ℕ} (h : HasShape3 t a b c) :
    groups3 a b c (flatten3 t) = t := by
  obtain ⟨hlen, hrows⟩ := h
  subst hlen
  induction t with
  | nil => rfl
  | cons mr rest ih =>
    have hmr := hrows mr (List.mem_cons_self mr rest)
    have hflat : mr.flatten.length = b * c := flatten_length_uniform hmr.1 hmr.2
    simp only [groups3, flatten3, List.map_cons, List.flatten_cons, List.length_cons]
    rw [chunks_append hflat]
    simp only [List.map_cons]
    have ih' := ih (fun w hw => hrows w (List.mem_cons_of_mem mr hw))
    simp only [groups3, flatten3] at ih'
    rw [ih']
    rw [← hmr.1, chunks_flatten hmr.2]

theorem reshape3_self {t : Tensor3 R} {a b c : ℕ} (h : HasShape3 t a b c) :
    reshape3 t a b c = some t := by
  unfold reshape3
  rw [if_pos (flatten3_length h), groups3_flatten3 h]

theorem reshape3_of_count {t : Tensor3 R} {a b c : ℕ}
    (h : (flatten3 t).length = a * b * c) :
    reshape3 t a b c = some (groups3 a b c (flatten3 t)) := by
  unfold reshape3
  rw [if_pos h]

theorem reshape3_none {t : Tensor3 R} {a b c : ℕ}
    (h : (flatten3 t).length ≠ a * b * c) : reshape3 t a b c = none := by
  unfold reshape3
  rw [if_neg h]

/-! ### Shape propagation lemmas -/

@[simp] theorem matvec_length (w : List (List R)) (x : List R) :
    (matvec w x).length = w.length := by simp [matvec]

@[simp] theorem vadd_length (a b : List R) :
    (vadd a b).length = min a.length b.length := by simp [vadd]

theorem tanh_cell_length {H : ℕ} (tanh : R → R) {p : LayerParams R}
    (h1 : p.w_ih.length = H) (h2 : p.w_hh.length = H)
    (h3 : p.b_ih.length = H) (h4 : p.b_hh.length = H) (x h : Vec R) :
    (tanh_cell tanh p x h).length = H := by
  simp [tanh_cell, h1, h2, h3, h4]

theorem SpecScan_mem_length {α : Type} {f : α → Vec R → Vec R} {H : ℕ}
    (hf : ∀ x h, (f x h).length = H) (h0 : Vec R) (xs : List α) :
    ∀ v ∈ SpecScan f h0 xs, v.length = H := by
  induction xs generalizing h0 with
  | nil => intro v hv; simp at hv
  | cons x rest ih =>
    intro v hv
    rw [SpecScan_cons] at hv
    rcases List.mem_cons.mp hv with hv | hv
    · rw [hv]; exact hf x h0
    · exact ih (f x h0) v hv

theorem SpecChainOut_length {P γ : Type} (cell : P → γ → γ → γ)
    (phs : List (P × γ)) (xs : List γ) :
    (SpecChainOut cell phs xs).length = xs.length := by
  induction phs generalizing xs with
  | nil => rfl
  | cons ph rest ih => simp [SpecChainOut, ih]

theorem SpecChainOut_ne_nil {P γ : Type} (cell : P → γ → γ → γ)
    (phs : List (P × γ)) {xs : List γ} (hxs : xs ≠ []) :
    SpecChainOut cell phs xs ≠ [] := by
  intro hc
  apply hxs
  have := SpecChainOut_length cell phs xs
  rw [hc] at this
  exact List.length_eq_zero.mp this.symm

/-- With at least one layer, every vector of the chained output sequence is
an output of the last layer's cell, hence has the cell's output length. -/
theorem SpecChainOut_mem_length {P : Type} {cell : P → Vec R → Vec R → Vec R} {H : ℕ}
    {phs : List (P × Vec R)}
    (hcell : ∀ ph ∈ phs, ∀ x h, (cell ph.1 x h).length = H)
    (hne : phs ≠ []) (xs : List (Vec R)) :
    ∀ v ∈ SpecChainOut cell phs xs, v.length = H := by
  induction phs generalizing xs with
  | nil => exact absurd rfl hne
  | cons ph rest ih =>
    intro v hv
    rw [show SpecChainOut cell (ph :: rest) xs
        = SpecChainOut cell rest (SpecScan (cell ph.1) ph.2 xs) from rfl] at hv
    cases rest with
    | nil =>
      exact SpecScan_mem_length (hcell ph (List.mem_cons_self ph []))
        ph.2 xs v hv
    | cons ph2 rest2 =>
      exact ih (fun q hq => hcell q (List.mem_cons_of_mem ph hq))
        (List.cons_ne_nil ph2 rest2) (SpecScan (cell ph.1) ph.2 xs) v hv

theorem foldl_eq_app {α β : Type} (f : α → β → β) :
    ∀ (xs : List α) (h0 : β), xs ≠ [] →
      ∃ x h, List.foldl (fun b a => f a b) h0 xs = f x h
  | [], _, hne => absurd rfl hne
  | [x], h0, _ => ⟨x, h0, rfl⟩
  | x :: y :: ys, h0, _ => by
    obtain ⟨x', h', hh⟩ := foldl_eq_app f (y :: ys) (f x h0) (List.cons_ne_nil y ys)
    exact ⟨x', h', by simpa using hh⟩

/-- With a nonempty input sequence, every per-layer final state is a cell
output of its layer, hence has the cell's output length. -/
theorem SpecFinals_mem_length {P : Type} {cell : P → Vec R → Vec R → Vec R} {H : ℕ}
    {phs : List (P × Vec R)}
    (hcell : ∀ ph ∈ phs, ∀ x h, (cell ph.1 x h).length = H)
    {xs : List (Vec R)} (hxs : xs ≠ []) :
    ∀ v ∈ SpecFinals cell phs xs, v.length = H := by
  induction phs generalizing xs with
  | nil => intro v hv; simp [SpecFinals] at hv
  | cons ph rest ih =>
    intro v hv
    rw [show SpecFinals cell (ph :: rest) xs
        = List.foldl (fun b a => cell ph.1 a b) ph.2 xs ::
            SpecFinals cell rest (SpecScan (cell ph.1) ph.2 xs) from rfl] at hv
    rcases List.mem_cons.mp hv with hv | hv
    · obtain ⟨x', h', hh⟩ := foldl_eq_app (cell ph.1) xs ph.2 hxs
      rw [hv, hh]
      exact hcell ph (List.mem_cons_self ph rest) x' h'
    · exact ih (fun q hq => hcell q (List.mem_cons_of_mem ph hq))
        (SpecScan_ne_nil (cell ph.1) ph.2 hxs) v hv

/-! ### Transposition lemmas -/

theorem filterMap_getElem?_length {α : Type} {t : List (List α)} {j : ℕ}
    (h : ∀ row ∈ t, j < row.length) :
    (t.filterMap (fun row => row[j]?)).length = t.length := by
  induction t with
  | nil => rfl
  | cons row rest ih =>
    have hj : j < row.length := h row (List.mem_cons_self row rest)
    simp only [List.filterMap_cons, List.getElem?_eq_getElem hj, List.length_cons]
    rw [ih (fun r hr => h r (List.mem_cons_of_mem row hr))]

theorem transposeJI_shape {α : Type} {t : List (List α)} {n b : ℕ}
    (hlen : t.length = n) (hrows : ∀ row ∈ t, row.length = b) (hne : t ≠ []) :
    (transposeJI t).length = b ∧
      ∀ col ∈ transposeJI t, col.length = n ∧ ∀ v ∈ col, ∃ row ∈ t, v ∈ row := by
  have hhead : (t.headD []).length = b := by
    cases t with
    | nil => exact absurd rfl hne
    | cons row rest => exact hrows row (List.mem_cons_self row rest)
  constructor
  · unfold transposeJI
    rw [List.length_map, List.length_range, hhead]
  · intro col hcol
    simp only [transposeJI, List.mem_map, List.mem_range] at hcol
    obtain ⟨j, hj, hcoleq⟩ := hcol
    rw [hhead] at hj
    subst hcoleq
    constructor
    · rw [filterMap_getElem?_length (fun row hr => (hrows row hr) ▸ hj)]
      exact hlen
    · intro v hv
      rcases List.mem_filterMap.mp hv with ⟨row, hrow, hget⟩
      exact ⟨row, hrow, List.getElem?_mem hget⟩

/-! ### Forward-pass machinery -/

theorem mapM_option_eq_map {α β : Type} (f : α → Option β) (g : α → β) :
    ∀ (l : List α), (∀ a ∈ l, f a = some (g a)) → l.mapM f = some (l.map g)
  | [], _ => rfl
  | a :: l, hall => by
    rw [List.mapM_cons, hall a (List.mem_cons_self a l),
      mapM_option_eq_map f g l (fun b hb => hall b (List.mem_cons_of_mem a hb))]
    rfl

/-- `layers_forward` on an empty input sequence always fails: either some
layer's `cum_map` stacks an empty list, or (`h_inits = []`) the final stack
of `hs_L` is empty, or the parameter lookup is out of range. -/
theorem layers_forward_nil_x (cell : LayerParams R → Vec R → Vec R → Vec R)
    (ps : List (LayerParams R)) (h_inits : List (Vec R)) :
    layers_forward cell ps [] h_inits = none := by
  cases h_inits with
  | nil =>
    cases ps with
    | nil => rfl
    | cons p ps' => rfl
  | cons h0 rest =>
    cases ps with
    | nil => rfl
    | cons p ps' => rfl

/-- Per-batch-row spec output sequence (last layer's output). -/
def rowHS (tanh : R → R) (m : RNN R) (pr : List (Vec R) × List (Vec R)) : List (Vec R) :=
  SpecChainOut (tanh_cell tanh) (m.params.zip pr.2) pr.1

/-- Per-batch-row spec final-states stack (one per layer). -/
def rowFin (tanh : R → R) (m : RNN R) (pr : List (Vec R) × List (Vec R)) : List (Vec R) :=
  SpecFinals (tanh_cell tanh) (m.params.zip pr.2) pr.1

/-- The batch loop of `__call__` in spec form: every row is scanned through
the layer chain, results are stacked, and the final stack is transposed. -/
theorem forwardBatches_eq_spec (tanh : R → R) (m : RNN R) (x h0 : Tensor3 R)
    (hzip : x.zip h0 ≠ [])
    (hrows : ∀ pr ∈ x.zip h0, pr.1 ≠ [] ∧ pr.2.length = m.params.length)
    (hps : m.params ≠ []) :
    forwardBatches tanh m x h0 =
      some ((x.zip h0).map (rowHS tanh m), transposeJI ((x.zip h0).map (rowFin tanh m))) := by
  unfold forwardBatches
  rw [mapM_option_eq_map _ (fun pr => (rowHS tanh m pr, rowFin tanh m pr)) _
    (fun pr hpr => by
      unfold batch_forward rowHS rowFin
      exact layers_forward_eq_spec (tanh_cell tanh) m.params pr.2 pr.1
        (hrows pr hpr).2 hps (hrows pr hpr).1)]
  rw [Option.some_bind]
  have h1 : ((x.zip h0).map (fun pr => (rowHS tanh m pr, rowFin tanh m pr))).map Prod.fst
      = (x.zip h0).map (rowHS tanh m) := by
    rw [List.map_map]; rfl
  have h2 : ((x.zip h0).map (fun pr => (rowHS tanh m pr, rowFin tanh m pr))).map Prod.snd
      = (x.zip h0).map (rowFin tanh m) := by
    rw [List.map_map]; rfl
  rw [h1, h2]
  have hms : (x.zip h0).map (rowHS tanh m) ≠ [] := by
    intro hc
    exact hzip (List.map_eq_nil.mp hc)
  have hmn : (x.zip h0).map (rowFin tanh m) ≠ [] := by
    intro hc
    exact hzip (List.map_eq_nil.mp hc)
  rw [torch_stack_of_ne_nil hms, Option.some_bind, torch_stack_of_ne_nil hmn]
  rfl

/-- An all-rows-empty input makes the batch loop fail: with at least one
batch element, either the zip is empty (empty stack) or the first row's
`layers_forward` fails on its empty sequence. -/
theorem forwardBatches_none_of_empty_rows (tanh : R → R) (m : RNN R)
    {x : Tensor3 R} (h0 : Tensor3 R) (hne : x ≠ []) (hrows : ∀ r ∈ x, r = []) :
    forwardBatches tanh m x h0 = none := by
  unfold forwardBatches
  cases x with
  | nil => exact absurd rfl hne
  | cons xr xrest =>
    cases h0 with
    | nil => rfl
    | cons hr hrest =>
      rw [List.zip_cons_cons, List.mapM_cons]
      have hxr : xr = [] := hrows xr (List.mem_cons_self xr xrest)
      rw [show batch_forward tanh m.params (xr, hr).1 (xr, hr).2
          = batch_forward tanh m.params xr hr from rfl, hxr]
      rw [show batch_forward tanh m.params [] hr = none from
        layers_forward_nil_x (tanh_cell tanh) m.params hr]
      rfl

/-- When the supplied `h_0` already has the exact shape the reshape targets,
the reshape is the identity and `forward` is the plain batch loop. -/
theorem forward_some_exact (tanh : R → R) (m : RNN R) (x h0 : Tensor3 R) {aN : ℕ}
    (hsh : HasShape3 h0 aN m.num_layers m.hidden_size) :
    forward tanh m aN x (some h0) = forwardBatches tanh m x h0 := by
  show (reshape3 h0 aN m.num_layers m.hidden_size).bind
      (fun h0r => forwardBatches tanh m x h0r) = forwardBatches tanh m x h0
  rw [reshape3_self hsh, Option.some_bind]

@[simp] theorem flatten_map_singleton {α β : Type} (g : α → β) (l : List α) :
    (l.map (fun a => [g a])).flatten = l.map g := by
  induction l with
  | nil => rfl
  | cons a l ih => simp [ih]

/-- Transposing a single-row stack `[v]` turns entry `j` of `v` into the
singleton row `[a]` at position `j`. -/
theorem transposeJI_singleton_getElem? {α : Type} {v : List α} {j : ℕ} {a : α}
    (ha : v[j]? = some a) : (transposeJI [v])[j]? = some [a] := by
  have hj : j < v.length := by
    by_contra hc
    push_neg at hc
    rw [List.getElem?_eq_none hc] at ha
    exact Option.noConfusion ha
  unfold transposeJI
  rw [show ([v] : List (List α)).headD [] = v from rfl]
  rw [List.getElem?_map, List.getElem?_range hj]
  simp [List.filterMap_cons, ha]

theorem filterMap_transposeJI_singletons {α : Type} {numL j : ℕ} (hj : j < numL) :
    ∀ (ts : List (List α)), (∀ v ∈ ts, v.length = numL) →
      ((ts.map (fun v => transposeJI [v])).filterMap (fun t => t[j]?)).flatten
        = ts.filterMap (fun row => row[j]?)
  | [], _ => rfl
  | v :: rest, hall => by
    have hv : v.length = numL := hall v (List.mem_cons_self v rest)
    have hjv : j < v.length := hv ▸ hj
    have hvj : v[j]? = some (v.get ⟨j, hjv⟩) := by
      rw [List.getElem?_eq_getElem hjv]
      rfl
    rw [List.map_cons, List.filterMap_cons, List.filterMap_cons]
    rw [transposeJI_singleton_getElem? hvj, hvj]
    simp only [List.flatten_cons, List.singleton_append]
    rw [filterMap_transposeJI_singletons hj rest
      (fun w hw => hall w (List.mem_cons_of_mem v hw))]

/-- A rectangular stack's `ijk->jik` transposition equals the batch-axis
concatenation of the transpositions of its single-row sub-stacks. -/
theorem transposeJI_eq_concatBatch1 {α : Type} {numL : ℕ} (ts : List (List (List α)))
    (hne : ts ≠ []) (hall : ∀ v ∈ ts, v.length = numL) :
    transposeJI ts =
      (List.range numL).map (fun j =>
        ((ts.map (fun v => transposeJI [v])).filterMap (fun t => t[j]?)).flatten) := by
  have hhead : (ts.headD []).length = numL := by
    cases ts with
    | nil => exact absurd rfl hne
    | cons v rest => exact hall v (List.mem_cons_self v rest)
  have h1 : transposeJI ts = (List.range numL).map (fun j =>
      ts.filterMap (fun row => row[j]?)) := by
    unfold transposeJI
    rw [hhead]
  rw [h1]
  apply List.map_congr_left
  intro j hj
  exact (filterMap_transposeJI_singletons (List.mem_range.mp hj) ts hall).symm

/-- A batch-of-one call of `forward` with an exactly-shaped initial stack:
the result is the single row's chained output and its transposed final
stack. -/
theorem forward_single (tanh : R → R) (m : RNN R) (xr hr : List (Vec R))
    (hxr : xr ≠ []) (hlen : hr.length = m.params.length)
    (hnl : hr.length = m.num_layers) (hhid : ∀ v ∈ hr, v.length = m.hidden_size)
    (hps : m.params ≠ []) :
    forward tanh m 1 [xr] (some [hr]) =
      some ([rowHS tanh m (xr, hr)], transposeJI [rowFin tanh m (xr, hr)]) := by
  rw [forward_some_exact tanh m [xr] [hr]
    (by
      refine ⟨rfl, ?_⟩
      intro mr hmr
      rw [List.mem_singleton.mp hmr]
      exact ⟨hnl, hhid⟩)]
  rw [forwardBatches_eq_spec tanh m [xr] [hr] (by simp)
    (fun pr hpr => by
      rw [List.zip_cons_cons, List.zip_nil_left] at hpr
      rw [List.mem_singleton.mp hpr]
      exact ⟨hxr, hlen⟩)
    hps]
  rw [List.zip_cons_cons, List.zip_nil_left]
  rfl

/-! ## Concrete instances (used by closed theorems and witnesses) -/

/-- The identity as the elementwise activation: any `tanh : R → R` is legal
in the parametric embedding, and the identity keeps witnesses kernel-computable. -/
def qid : ℤ → ℤ := fun q => q

/-- 1×1 layer passing its input through (`w_ih = [[1]]`, rest zero). -/
def pId : LayerParams ℤ := ⟨[[1]], [[0]], [0], [0]⟩

/-- 1×1 layer with all parameters zero. -/
def pZero : LayerParams ℤ := ⟨[[0]], [[0]], [0], [0]⟩

/-- One-layer model, `input_size = hidden_size = 1`. -/
def mOne : RNN ℤ := ⟨1, 1, 1, [pId]⟩

/-- Two-layer model, `input_size = hidden_size = 1`. -/
def mTwo : RNN ℤ := ⟨1, 1, 2, [pId, pZero]⟩

/-! ## Claims -/

/-- C1: the claim says that with `H0` omitted, `forward` behaves as if `H0`
were an all-zero tensor sized by the actual batch dimension of `X`.  The code
instead sizes the default (and the reshape) by the ambient module-level `N`:
with `ambientN = 1` and an `X` of 2 batch rows, `zip` silently truncates and
only 1 output row is produced, whereas sizing by `X`'s own shape
(`ambientN = 2`) produces both rows. -/
theorem claim_C1_ambient_batch :
    forward qid mOne 1 [[[(5 : ℤ)]], [[7]]] none = some ([[[5]]], [[[5]]]) ∧
      forward qid mOne 2 [[[(5 : ℤ)]], [[7]]] none =
        some ([[[5]], [[7]]], [[[5], [7]]]) := by
  exact ⟨by decide, by decide⟩

/-- C2 counterexample: the claim says the scan of an empty sequence returns
the empty sequence with `h_0` unchanged, and that `forward` on `L = 0`
returns empty outputs.  In the code `torch.stack` raises on the empty list,
so `cum_map` and `forward` fail instead. -/
theorem claim_C2_counterexample :
    cum_map (fun (x _h : Vec ℤ) => x) [] [(0 : ℤ)] = none ∧
      cum_map (fun (x _h : Vec ℤ) => x) [] [(0 : ℤ)] ≠ some ([], [(0 : ℤ)]) ∧
      forward qid mOne 1 [([] : List (List ℤ))] (some [[[0]]]) = none := by
  exact ⟨by decide, by decide, by decide⟩

/-- C2 amended: on an empty input sequence the scan fails (`torch.stack` of
the empty accumulator), and `forward` on an `L = 0` batch with at least one
row fails rather than returning an empty `HiddenSequence`.  (The pre-stack
loop does leave `h` equal to `h_0`, but the stack raises before returning.) -/
theorem claim_C2_amended :
    (∀ (α β : Type) (f : α → β → β) (h : β), cum_map f [] h = none) ∧
      ∀ (S : Type) [CommRing S] (tanh : S → S) (m : RNN S) (aN : ℕ)
        (x : Tensor3 S) (h0opt : Option (Tensor3 S)),
        x ≠ [] → (∀ r ∈ x, r = []) → forward tanh m aN x h0opt = none := by
  constructor
  · intro α β f h
    rfl
  · intro S _ tanh m aN x h0opt hne hrows
    show (reshape3 (h0opt.getD (zeros3 m.num_layers aN m.hidden_size))
        aN m.num_layers m.hidden_size).bind
        (fun h0r => forwardBatches tanh m x h0r) = none
    cases hres : reshape3 (h0opt.getD (zeros3 m.num_layers aN m.hidden_size))
        aN m.num_layers m.hidden_size with
    | none => rfl
    | some h0r =>
      rw [Option.some_bind]
      exact forwardBatches_none_of_empty_rows tanh m h0r hne hrows

/-- Witness for the C2 amended theorem at a concrete `L = 0` input. -/
theorem claim_C2_witness :
    (([([] : List (List ℤ))] : Tensor3 ℤ) ≠ [] ∧
        ∀ r ∈ ([([] : List (List ℤ))] : Tensor3 ℤ), r = []) ∧
      forward qid mOne 1 [([] : List (List ℤ))] none = none :=
  ⟨⟨by decide, by decide⟩,
    claim_C2_amended.2 ℤ qid mOne 1 [([] : List (List ℤ))] none
      (by decide) (by decide)⟩

/-- C3 counterexample: the claim says `forward` fails whenever
`X.shape[0] ≠ H0.shape[0]` or `H0.shape[1] ≠ num_layers`.  Supplying `H0` in
the transposed layout (2, 1, 1) against `X` of shape (1, 1, 1) and
`num_layers = 2` violates both conditions, yet `forward` succeeds: the
reshape only checks the element count. -/
theorem claim_C3_counterexample :
    ([[[(4 : ℤ)]]] : Tensor3 ℤ).length ≠ ([[[(1 : ℤ)]], [[2]]] : Tensor3 ℤ).length ∧
      (([[[(1 : ℤ)]], [[2]]] : Tensor3 ℤ).headD []).length ≠ mTwo.num_layers ∧
      forward qid mTwo 1 [[[(4 : ℤ)]]] (some [[[1]], [[2]]]) =
        some ([[[0]]], [[[4]], [[0]]]) := by
  exact ⟨by decide, by decide, by decide⟩

/-- C3 amended: the only shape check `forward` performs on a supplied `h_0`
is the reshape's total-element-count test against
`ambientN * num_layers * hidden_size`; when the count disagrees, the call
fails (reshape error), and per-axis mismatches with an agreeing count are
accepted (see the counterexample). -/
theorem claim_C3_amended (tanh : R → R) (m : RNN R) (aN : ℕ) (x h0 : Tensor3 R)
    (hcount : (flatten3 h0).length ≠ aN * m.num_layers * m.hidden_size) :
    forward tanh m aN x (some h0) = none := by
  show (reshape3 h0 aN m.num_layers m.hidden_size).bind
      (fun h0r => forwardBatches tanh m x h0r) = none
  rw [reshape3_none hcount]
  rfl

/-- Witness for the C3 amended theorem: an `h_0` with 1 element where
`ambientN * num_layers * hidden_size = 2`. -/
theorem claim_C3_witness :
    (flatten3 ([[[(1 : ℤ)]]] : Tensor3 ℤ)).length ≠
        1 * mTwo.num_layers * mTwo.hidden_size ∧
      forward qid mTwo 1 [[[(4 : ℤ)]]] (some [[[1]]]) = none :=
  ⟨by decide, claim_C3_amended qid mTwo 1 [[[(4 : ℤ)]]] [[[1]]] (by decide)⟩

/-- C4 counterexample: the claim says `layers_forward` fails whenever
`len(h_inits) ≠ num_layers`.  With `num_layers = 2` and a single initial
hidden vector, the loop runs over `h_inits` only: one layer is processed and
the call succeeds. -/
theorem claim_C4_counterexample :
    ([[(0 : ℤ)]] : List (Vec ℤ)).length ≠ mTwo.num_layers ∧
      layers_forward (tanh_cell qid) mTwo.params [[(3 : ℤ)]] [[0]] =
        some ([[3]], [[3]]) := by
  exact ⟨by decide, by decide⟩

/-- C4 amended: `layers_forward` fails (out-of-range parameter lookup, an
`IndexError` rather than an explicit `ConfigError`) only when `h_inits` is
longer than the parameter list; when it is shorter, the trailing layers are
silently skipped — the call behaves exactly as if only the first
`len(h_inits)` layers existed. -/
theorem claim_C4_amended (cell : LayerParams R → Vec R → Vec R → Vec R)
    (ps : List (LayerParams R)) (xs : List (Vec R)) (hs : List (Vec R)) :
    (ps.length < hs.length → layers_forward cell ps xs hs = none) ∧
      (hs.length ≤ ps.length →
        layers_forward cell ps xs hs =
          layers_forward cell (ps.take hs.length) xs hs) := by
  constructor
  · intro hlt
    unfold layers_forward
    rw [layers_go_none_of_lt cell hs ps xs hlt]
    rfl
  · intro hle
    unfold layers_forward
    rw [layers_go_take cell hs ps xs hle]

/-- Witness for the C4 amended theorem: three initial vectors against two
layers fails. -/
theorem claim_C4_witness :
    mTwo.params.length < ([[(0 : ℤ)], [0], [0]] : List (Vec ℤ)).length ∧
      layers_forward (tanh_cell qid) mTwo.params [[(3 : ℤ)]] [[0], [0], [0]] = none :=
  ⟨by decide,
    (claim_C4_amended (tanh_cell qid) mTwo.params [[(3 : ℤ)]] [[0], [0], [0]]).1
      (by decide)⟩

/-- C5: on a nonempty sequence, `cum_map` produces exactly the ordered
sequence `h_1..h_L` with `h_t = f(x_t, h_{t-1})` (the spec-side `SpecScan`,
stated pointwise below as well) and returns `h_L` — the left-fold of the
cell, which is also the last produced element — as the final state. -/
theorem claim_C5_scan {α β : Type} (f : α → β → β) (xs : List α) (h0 : β)
    (hne : xs ≠ []) :
    cum_map f xs h0 =
        some (SpecScan f h0 xs, List.foldl (fun b a => f a b) h0 xs) ∧
      (SpecScan f h0 xs).length = xs.length ∧
      (∀ (i : ℕ) (x : α) (hp : β), xs[i]? = some x →
        (if i = 0 then some h0 else (SpecScan f h0 xs)[i - 1]?) = some hp →
        (SpecScan f h0 xs)[i]? = some (f x hp)) ∧
      (SpecScan f h0 xs).getLast? =
        some (List.foldl (fun b a => f a b) h0 xs) :=
  ⟨cum_map_eq_spec f h0 hne, SpecScan_length f h0 xs,
    fun i x hp hx hh => SpecScan_getElem? f h0 xs i x hp hx hh,
    SpecScan_getLast? f h0 hne⟩

/-- Witness for C5 at `f x h = x + h`, `xs = [1, 2]`, `h_0 = 0`. -/
theorem claim_C5_witness :
    ([(1 : ℤ), 2] ≠ ([] : List ℤ)) ∧
      (cum_map (fun (x h : ℤ) => x + h) [1, 2] 0 =
          some (SpecScan (fun (x h : ℤ) => x + h) 0 [1, 2],
            List.foldl (fun (b a : ℤ) => a + b) 0 [1, 2]) ∧
        (SpecScan (fun (x h : ℤ) => x + h) 0 [1, 2]).length = [(1 : ℤ), 2].length ∧
        (∀ (i : ℕ) (x hp : ℤ), [(1 : ℤ), 2][i]? = some x →
          (if i = 0 then some (0 : ℤ)
            else (SpecScan (fun (x h : ℤ) => x + h) 0 [1, 2])[i - 1]?) = some hp →
          (SpecScan (fun (x h : ℤ) => x + h) 0 [1, 2])[i]? = some (x + hp)) ∧
        (SpecScan (fun (x h : ℤ) => x + h) 0 [1, 2]).getLast? =
          some (List.foldl (fun (b a : ℤ) => a + b) 0 [1, 2])) :=
  ⟨by decide, claim_C5_scan (fun (x h : ℤ) => x + h) [1, 2] 0 (by decide)⟩

/-- C6: `tanh_cell` returns exactly the elementwise
`tanh(W_ih·x + W_hh·h + b_ih + b_hh)`: the result has the common row count
`H` of the parameters, and entry `i` is `tanh` of the dot product of row `i`
of `W_ih` with `x`, plus the dot product of row `i` of `W_hh` with `h`, plus
the `i`-th entries of both biases. -/
theorem claim_C6_cell (tanh : R → R) (p : LayerParams R) (x h : Vec R) (H : ℕ)
    (h1 : p.w_ih.length = H) (h2 : p.w_hh.length = H)
    (h3 : p.b_ih.length = H) (h4 : p.b_hh.length = H) :
    (tanh_cell tanh p x h).length = H ∧
      ∀ i : ℕ, i < H →
        (tanh_cell tanh p x h)[i]? =
          some (tanh (dot (p.w_ih.getD i []) x + dot (p.w_hh.getD i []) h +
            p.b_ih.getD i 0 + p.b_hh.getD i 0)) := by
  refine ⟨tanh_cell_length tanh h1 h2 h3 h4 x h, ?_⟩
  intro i hi
  have hi1 : i < p.w_ih.length := h1 ▸ hi
  have hi2 : i < p.w_hh.length := h2 ▸ hi
  have hi3 : i < p.b_ih.length := h3 ▸ hi
  have hi4 : i < p.b_hh.length := h4 ▸ hi
  unfold tanh_cell vadd matvec
  simp [List.getElem?_zipWith, List.getElem?_eq_getElem, hi1, hi2, hi3, hi4,
    List.getD_eq_getElem?_getD]

/-- Witness for C6 at the 1×1 pass-through layer. -/
theorem claim_C6_witness :
    (pId.w_ih.length = 1 ∧ pId.w_hh.length = 1 ∧
        pId.b_ih.length = 1 ∧ pId.b_hh.length = 1) ∧
      ((tanh_cell qid pId [(2 : ℤ)] [3]).length = 1 ∧
        ∀ i : ℕ, i < 1 →
          (tanh_cell qid pId [(2 : ℤ)] [3])[i]? =
            some (qid (dot (pId.w_ih.getD i []) [2] + dot (pId.w_hh.getD i []) [3] +
              pId.b_ih.getD i 0 + pId.b_hh.getD i 0))) :=
  ⟨⟨rfl, rfl, rfl, rfl⟩, claim_C6_cell qid pId [2] [3] 1 rfl rfl rfl rfl⟩

/-- C7: with one initial hidden vector per layer and a nonempty input
sequence, `layers_forward` applies the scan layer by layer in index order,
each layer consuming the previous layer's full output sequence, and returns
the last layer's output sequence together with the per-layer final hidden
vectors stacked in layer-index order (one per layer). -/
theorem claim_C7_layers (cell : LayerParams R → Vec R → Vec R → Vec R)
    (ps : List (LayerParams R)) (hs xs : List (Vec R))
    (hlen : hs.length = ps.length) (hps : ps ≠ []) (hxs : xs ≠ []) :
    layers_forward cell ps xs hs =
        some (SpecChainOut cell (ps.zip hs) xs, SpecFinals cell (ps.zip hs) xs) ∧
      (SpecFinals cell (ps.zip hs) xs).length = ps.length := by
  refine ⟨layers_forward_eq_spec cell ps hs xs hlen hps hxs, ?_⟩
  rw [SpecFinals_length, List.length_zip, hlen, Nat.min_self]

/-- Witness for C7 at the two-layer model. -/
theorem claim_C7_witness :
    (([[(0 : ℤ)], [0]] : List (Vec ℤ)).length = mTwo.params.length ∧
        mTwo.params ≠ [] ∧ ([[(3 : ℤ)]] : List (Vec ℤ)) ≠ []) ∧
      (layers_forward (tanh_cell qid) mTwo.params [[(3 : ℤ)]] [[0], [0]] =
          some (SpecChainOut (tanh_cell qid) (mTwo.params.zip [[0], [0]]) [[3]],
            SpecFinals (tanh_cell qid) (mTwo.params.zip [[0], [0]]) [[3]]) ∧
        (SpecFinals (tanh_cell qid) (mTwo.params.zip [[0], [0]]) [[3]]).length =
          mTwo.params.length) :=
  ⟨⟨by decide, by decide, by decide⟩,
    claim_C7_layers (tanh_cell qid) mTwo.params [[0], [0]] [[3]]
      (by decide) (by decide) (by decide)⟩

theorem mem_zip_fst {α β : Type} {pr : α × β} {l1 : List α} {l2 : List β}
    (h : pr ∈ l1.zip l2) : pr.1 ∈ l1 := by
  obtain ⟨a, b⟩ := pr
  exact (List.of_mem_zip h).1

theorem mem_zip_snd {α β : Type} {pr : α × β} {l1 : List α} {l2 : List β}
    (h : pr ∈ l1.zip l2) : pr.2 ∈ l2 := by
  obtain ⟨a, b⟩ := pr
  exact (List.of_mem_zip h).2

/-- C8: on a valid call — parameters dimensioned by `hidden_size`, at least
one layer, `X` a nonempty batch of nonempty `L`-step sequences of
`input_size`-vectors, `H0` of exact shape (N, num_layers, H_out), and the
ambient batch global equal to `X`'s true batch size — `forward` succeeds,
its `HiddenSequence` is exactly the per-batch-element output sequences
(`rowHS`, the last layer's chained scan on each row) stacked along the
batch axis, of shape (N, L, H_out), and its `FinalHiddenStack` is exactly
the per-batch-element per-layer final hidden vectors (`rowFin`) stacked
along the batch axis and then transposed on the batch and layer axes
(`transposeJI`), of shape (num_layers, N, H_out). -/
theorem claim_C8_shapes (tanh : R → R) (m : RNN R) (x h0 : Tensor3 R) (L : ℕ)
    (hplen : m.params.length = m.num_layers)
    (hnl : 1 ≤ m.num_layers)
    (hwf : ∀ p ∈ m.params, p.w_ih.length = m.hidden_size ∧
      p.w_hh.length = m.hidden_size ∧ p.b_ih.length = m.hidden_size ∧
      p.b_hh.length = m.hidden_size)
    (hN : 1 ≤ x.length) (hL : 1 ≤ L)
    (hxr : ∀ r ∈ x, r.length = L ∧ ∀ v ∈ r, v.length = m.input_size)
    (hh0 : HasShape3 h0 x.length m.num_layers m.hidden_size) :
    forward tanh m x.length x (some h0) =
        some ((x.zip h0).map (rowHS tanh m),
          transposeJI ((x.zip h0).map (rowFin tanh m))) ∧
      HasShape3 ((x.zip h0).map (rowHS tanh m)) x.length L m.hidden_size ∧
      HasShape3 (transposeJI ((x.zip h0).map (rowFin tanh m)))
        m.num_layers x.length m.hidden_size := by
  have hps : m.params ≠ [] := by
    intro hc
    rw [hc] at hplen
    simp at hplen
    omega
  have h0len : h0.length = x.length := hh0.1
  have hziplen : (x.zip h0).length = x.length := by
    rw [List.length_zip, h0len, Nat.min_self]
  have hzipne : x.zip h0 ≠ [] := by
    intro hc
    rw [hc] at hziplen
    simp at hziplen
    omega
  have hrows : ∀ pr ∈ x.zip h0, pr.1 ≠ [] ∧ pr.2.length = m.params.length := by
    intro pr hpr
    have hx1 : pr.1 ∈ x := mem_zip_fst hpr
    have hx2 : pr.2 ∈ h0 := mem_zip_snd hpr
    constructor
    · intro hc
      have := (hxr pr.1 hx1).1
      rw [hc] at this
      simp at this
      omega
    · rw [(hh0.2 pr.2 hx2).1, hplen]
  have hcell : ∀ pr ∈ x.zip h0, ∀ ph ∈ m.params.zip pr.2,
      ∀ (xv hv : Vec R), (tanh_cell tanh ph.1 xv hv).length = m.hidden_size := by
    intro pr _ ph hph xv hv
    have hp1 : ph.1 ∈ m.params := mem_zip_fst hph
    exact tanh_cell_length tanh (hwf ph.1 hp1).1 (hwf ph.1 hp1).2.1
      (hwf ph.1 hp1).2.2.1 (hwf ph.1 hp1).2.2.2 xv hv
  have hpairlen : ∀ pr ∈ x.zip h0, (m.params.zip pr.2).length = m.num_layers := by
    intro pr hpr
    rw [List.length_zip, (hrows pr hpr).2, hplen, Nat.min_self]
  have hpairne : ∀ pr ∈ x.zip h0, m.params.zip pr.2 ≠ [] := by
    intro pr hpr hc
    have := hpairlen pr hpr
    rw [hc] at this
    simp at this
    omega
  rw [forward_some_exact tanh m x h0 hh0,
    forwardBatches_eq_spec tanh m x h0 hzipne hrows hps]
  refine ⟨rfl, ?_, ?_⟩
  · -- HiddenSequence shape (N, L, H_out)
    constructor
    · rw [List.length_map, hziplen]
    · intro mr hmr
      obtain ⟨pr, hpr, hmreq⟩ := List.mem_map.mp hmr
      subst hmreq
      constructor
      · rw [rowHS, SpecChainOut_length]
        exact (hxr pr.1 (mem_zip_fst hpr)).1
      · intro v hv
        exact SpecChainOut_mem_length (hcell pr hpr) (hpairne pr hpr) pr.1 v hv
  · -- FinalHiddenStack shape (num_layers, N, H_out)
    have ht_len : ((x.zip h0).map (rowFin tanh m)).length = x.length := by
      rw [List.length_map, hziplen]
    have ht_rows : ∀ row ∈ (x.zip h0).map (rowFin tanh m),
        row.length = m.num_layers := by
      intro row hrow
      obtain ⟨pr, hpr, hroweq⟩ := List.mem_map.mp hrow
      subst hroweq
      rw [rowFin, SpecFinals_length]
      exact hpairlen pr hpr
    have ht_ne : (x.zip h0).map (rowFin tanh m) ≠ [] := by
      intro hc
      exact hzipne (List.map_eq_nil.mp hc)
    obtain ⟨hlen_t, hcols⟩ := transposeJI_shape ht_len ht_rows ht_ne
    refine ⟨hlen_t, ?_⟩
    intro col hcol
    obtain ⟨hcollen, hcolmem⟩ := hcols col hcol
    refine ⟨hcollen, ?_⟩
    intro v hv
    obtain ⟨row, hrow, hvrow⟩ := hcolmem v hv
    obtain ⟨pr, hpr, hroweq⟩ := List.mem_map.mp hrow
    subst hroweq
    exact SpecFinals_mem_length (hcell pr hpr) (hrows pr hpr).1 v hvrow

/-- Witness for C8 at the one-layer model with `N = L = 1`. -/
theorem claim_C8_witness :
    (mOne.params.length = mOne.num_layers ∧ 1 ≤ mOne.num_layers ∧
        1 ≤ ([[[(1 : ℤ)]]] : Tensor3 ℤ).length ∧ (1 : ℕ) ≤ 1 ∧
        HasShape3 ([[[(0 : ℤ)]]] : Tensor3 ℤ) ([[[(1 : ℤ)]]] : Tensor3 ℤ).length
          mOne.num_layers mOne.hidden_size) ∧
      (forward qid mOne ([[[(1 : ℤ)]]] : Tensor3 ℤ).length [[[(1 : ℤ)]]]
            (some [[[0]]]) =
          some ((([[[(1 : ℤ)]]] : Tensor3 ℤ).zip ([[[(0 : ℤ)]]] : Tensor3 ℤ)).map
              (rowHS qid mOne),
            transposeJI ((([[[(1 : ℤ)]]] : Tensor3 ℤ).zip
              ([[[(0 : ℤ)]]] : Tensor3 ℤ)).map (rowFin qid mOne))) ∧
        HasShape3 ((([[[(1 : ℤ)]]] : Tensor3 ℤ).zip
            ([[[(0 : ℤ)]]] : Tensor3 ℤ)).map (rowHS qid mOne))
          ([[[(1 : ℤ)]]] : Tensor3 ℤ).length 1 mOne.hidden_size ∧
        HasShape3 (transposeJI ((([[[(1 : ℤ)]]] : Tensor3 ℤ).zip
            ([[[(0 : ℤ)]]] : Tensor3 ℤ)).map (rowFin qid mOne)))
          mOne.num_layers ([[[(1 : ℤ)]]] : Tensor3 ℤ).length mOne.hidden_size) :=
  ⟨⟨by decide, by decide, by decide, by decide, by decide⟩,
    claim_C8_shapes qid mOne [[[(1 : ℤ)]]] [[[0]]] 1 (by decide) (by decide)
      (by decide) (by decide) (by decide) (by decide) (by decide)⟩

/-- C9: batch independence.  On a valid call (as in the shape contract),
the full-batch result of `forward` equals the concatenation of the results
of `N` batch-of-one `forward` calls on the matching rows: the
`HiddenSequence` is the flattened concatenation of the single-call
`HiddenSequence`s, and the `FinalHiddenStack` is the concatenation of the
single-call stacks along the batch axis. -/
theorem claim_C9_batch_independence (tanh : R → R) (m : RNN R)
    (x h0 : Tensor3 R) (L : ℕ)
    (hplen : m.params.length = m.num_layers)
    (hnl : 1 ≤ m.num_layers)
    (hN : 1 ≤ x.length) (hL : 1 ≤ L)
    (hxr : ∀ r ∈ x, r.length = L)
    (hh0 : HasShape3 h0 x.length m.num_layers m.hidden_size) :
    ∃ singles : List (Tensor3 R × Tensor3 R),
      singles.length = x.length ∧
      (∀ (i : ℕ) (pr : List (Vec R) × List (Vec R)) (s : Tensor3 R × Tensor3 R),
        (x.zip h0)[i]? = some pr → singles[i]? = some s →
        forward tanh m 1 [pr.1] (some [pr.2]) = some s) ∧
      forward tanh m x.length x (some h0) =
        some ((singles.map Prod.fst).flatten,
          concatBatch1 m.num_layers (singles.map Prod.snd)) := by
  have hps : m.params ≠ [] := by
    intro hc
    rw [hc] at hplen
    simp at hplen
    omega
  have h0len : h0.length = x.length := hh0.1
  have hziplen : (x.zip h0).length = x.length := by
    rw [List.length_zip, h0len, Nat.min_self]
  have hzipne : x.zip h0 ≠ [] := by
    intro hc
    rw [hc] at hziplen
    simp at hziplen
    omega
  have hrows : ∀ pr ∈ x.zip h0, pr.1 ≠ [] ∧ pr.2.length = m.params.length := by
    intro pr hpr
    constructor
    · intro hc
      have := hxr pr.1 (mem_zip_fst hpr)
      rw [hc] at this
      simp at this
      omega
    · rw [(hh0.2 pr.2 (mem_zip_snd hpr)).1, hplen]
  have hall : ∀ v ∈ (x.zip h0).map (rowFin tanh m), v.length = m.num_layers := by
    intro v hv
    obtain ⟨pr, hpr, hveq⟩ := List.mem_map.mp hv
    subst hveq
    rw [rowFin, SpecFinals_length, List.length_zip, (hrows pr hpr).2, hplen,
      Nat.min_self]
  have htne : (x.zip h0).map (rowFin tanh m) ≠ [] := by
    intro hc
    exact hzipne (List.map_eq_nil.mp hc)
  refine ⟨(x.zip h0).map
      (fun pr => ([rowHS tanh m pr], transposeJI [rowFin tanh m pr])), ?_, ?_, ?_⟩
  · rw [List.length_map, hziplen]
  · intro i pr s hpr hsi
    rw [List.getElem?_map, hpr] at hsi
    have hseq : ([rowHS tanh m pr], transposeJI [rowFin tanh m pr]) = s :=
      Option.some.inj hsi
    have hmem : pr ∈ x.zip h0 := List.getElem?_mem hpr
    rw [← hseq]
    exact forward_single tanh m pr.1 pr.2 (hrows pr hmem).1 (hrows pr hmem).2
      ((hh0.2 pr.2 (mem_zip_snd hmem)).1) ((hh0.2 pr.2 (mem_zip_snd hmem)).2) hps
  · rw [forward_some_exact tanh m x h0 hh0,
      forwardBatches_eq_spec tanh m x h0 hzipne hrows hps]
    have h1 : (((x.zip h0).map
        (fun pr => ([rowHS tanh m pr], transposeJI [rowFin tanh m pr]))).map
          Prod.fst) = (x.zip h0).map (fun pr => [rowHS tanh m pr]) := by
      rw [List.map_map]
      rfl
    have h2 : (((x.zip h0).map
        (fun pr => ([rowHS tanh m pr], transposeJI [rowFin tanh m pr]))).map
          Prod.snd) = (x.zip h0).map (fun pr => transposeJI [rowFin tanh m pr]) := by
      rw [List.map_map]
      rfl
    have h3 : (x.zip h0).map (fun pr => transposeJI [rowFin tanh m pr])
        = ((x.zip h0).map (rowFin tanh m)).map (fun v => transposeJI [v]) := by
      rw [List.map_map]
      rfl
    rw [h1, h2, h3, flatten_map_singleton,
      transposeJI_eq_concatBatch1 ((x.zip h0).map (rowFin tanh m)) htne hall]
    rfl

/-- Witness for C9 at the one-layer model with a two-row batch. -/
theorem claim_C9_witness :
    (mOne.params.length = mOne.num_layers ∧ 1 ≤ mOne.num_layers ∧
        1 ≤ ([[[(5 : ℤ)]], [[7]]] : Tensor3 ℤ).length ∧ (1 : ℕ) ≤ 1 ∧
        (∀ r ∈ ([[[(5 : ℤ)]], [[7]]] : Tensor3 ℤ), r.length = 1) ∧
        HasShape3 ([[[(1 : ℤ)]], [[2]]] : Tensor3 ℤ)
          ([[[(5 : ℤ)]], [[7]]] : Tensor3 ℤ).length mOne.num_layers
          mOne.hidden_size) ∧
      ∃ singles : List (Tensor3 ℤ × Tensor3 ℤ),
        singles.length = ([[[(5 : ℤ)]], [[7]]] : Tensor3 ℤ).length ∧
        (∀ (i : ℕ) (pr : List (Vec ℤ) × List (Vec ℤ)) (s : Tensor3 ℤ × Tensor3 ℤ),
          (([[[(5 : ℤ)]], [[7]]] : Tensor3 ℤ).zip
            ([[[(1 : ℤ)]], [[2]]] : Tensor3 ℤ))[i]? = some pr →
          singles[i]? = some s →
          forward qid mOne 1 [pr.1] (some [pr.2]) = some s) ∧
        forward qid mOne ([[[(5 : ℤ)]], [[7]]] : Tensor3 ℤ).length
            [[[(5 : ℤ)]], [[7]]] (some [[[1]], [[2]]]) =
          some ((singles.map Prod.fst).flatten,
            concatBatch1 mOne.num_layers (singles.map Prod.snd)) :=
  ⟨⟨by decide, by decide, by decide, by decide, by decide, by decide⟩,
    claim_C9_batch_independence qid mOne [[[(5 : ℤ)]], [[7]]] [[[1]], [[2]]] 1
      (by decide) (by decide) (by decide) (by decide) (by decide) (by decide)⟩

/-- C10: a supplied `h_0` whose total element count equals
`ambientN * num_layers * hidden_size` is accepted by the reshape (never
rejected) and reinterpreted element-by-element in row-major order into
shape (ambientN, num_layers, hidden_size); `forward` then proceeds on the
reinterpreted tensor, and its result depends only on the flattened element
sequence of `h_0`, not on the supplied axis layout — in particular a
transposed-layout `h_0` is reinterpreted, not axis-transposed or
rejected. -/
theorem claim_C10_reshape (tanh : R → R) (m : RNN R) (aN : ℕ) (x h0 : Tensor3 R)
    (hcount : (flatten3 h0).length = aN * m.num_layers * m.hidden_size) :
    reshape3 h0 aN m.num_layers m.hidden_size =
        some (groups3 aN m.num_layers m.hidden_size (flatten3 h0)) ∧
      forward tanh m aN x (some h0) =
        forwardBatches tanh m x
          (groups3 aN m.num_layers m.hidden_size (flatten3 h0)) ∧
      ∀ h0' : Tensor3 R, flatten3 h0' = flatten3 h0 →
        forward tanh m aN x (some h0') = forward tanh m aN x (some h0) := by
  refine ⟨reshape3_of_count hcount, ?_, ?_⟩
  · show (reshape3 h0 aN m.num_layers m.hidden_size).bind
        (fun h0r => forwardBatches tanh m x h0r) = _
    rw [reshape3_of_count hcount, Option.some_bind]
  · intro h0' heq
    show (reshape3 h0' aN m.num_layers m.hidden_size).bind
          (fun h0r => forwardBatches tanh m x h0r)
        = (reshape3 h0 aN m.num_layers m.hidden_size).bind
          (fun h0r => forwardBatches tanh m x h0r)
    unfold reshape3
    rw [heq]

/-- Witness for C10: the transposed layout (num_layers, N, H_out) = (2, 1, 1)
against `ambientN = 1` and the two-layer model. -/
theorem claim_C10_witness :
    (flatten3 ([[[(1 : ℤ)]], [[2]]] : Tensor3 ℤ)).length =
        1 * mTwo.num_layers * mTwo.hidden_size ∧
      (reshape3 ([[[(1 : ℤ)]], [[2]]] : Tensor3 ℤ) 1 mTwo.num_layers
            mTwo.hidden_size =
          some (groups3 1 mTwo.num_layers mTwo.hidden_size
            (flatten3 ([[[(1 : ℤ)]], [[2]]] : Tensor3 ℤ))) ∧
        forward qid mTwo 1 [[[(4 : ℤ)]]] (some [[[1]], [[2]]]) =
          forwardBatches qid mTwo [[[(4 : ℤ)]]]
            (groups3 1 mTwo.num_layers mTwo.hidden_size
              (flatten3 ([[[(1 : ℤ)]], [[2]]] : Tensor3 ℤ))) ∧
        ∀ h0' : Tensor3 ℤ,
          flatten3 h0' = flatten3 ([[[(1 : ℤ)]], [[2]]] : Tensor3 ℤ) →
          forward qid mTwo 1 [[[(4 : ℤ)]]] (some h0') =
            forward qid mTwo 1 [[[(4 : ℤ)]]] (some [[[1]], [[2]]])) :=
  ⟨by decide,
    claim_C10_reshape qid mTwo 1 [[[(4 : ℤ)]]] [[[1]], [[2]]] (by decide)⟩

end RNNFS
